import Mathlib

/-!
# Verification of the aktools gated invocation layer

Shallow embedding of `src/aktools/core/api.py`: the sliding-window
`RateLimiter`, the TTL/LRU result cache (`api_cache`), the gateway
`invoke_ak_api`, the HTTP endpoints `private_root` / `public_root`
(their error classification and `eval`-string construction), and the
header-merging logic of `_patched_request`.

Machine time is modelled by `ℚ`; strings by `String` / `List Char`.
-/

namespace AKTools

/-! ## Result cache

Modelled from the spec: the Result Cache contract (spec §4.3).  The
concrete cache in the source is `api_cache = TTLCache(maxsize=..., ttl=...)`
from the external `cachetools` library, whose code is not part of this
repository; per the spec, entries expire `ttl` seconds after insertion
(a lookup at or after the expiry time misses), capacity is bounded at
`maxsize` with least-recently-used eviction on overflow, and a lookup of
an absent or expired key misses.  Entries are kept in least-recently-used
order, least recent first; an entry is `(key, expires, value)`. -/

/-- Cache key, as built by `hashkey(item_id, eval_str)` in `invoke_ak_api`:
the pair of the operation name and the optional parameter string. -/
abbrev CacheKey := String × Option String

/-- The state of `api_cache` (`TTLCache(maxsize=cache_maxsize, ttl=cache_ttl)`).
Values are `Option String` because `invoke_ak_api` stores the raw result of
`_fetch()`, which is `None` when the provider returned no data. -/
structure ApiCache where
  maxsize : ℕ
  ttl : ℚ
  entries : List (CacheKey × ℚ × Option String)
  deriving DecidableEq, Repr

/-- `api_cache[key]` at time `now`: find the entry for `key`; it is a hit
only while `now` is strictly before its expiry time (an entry inserted at
`T` has expiry `T + ttl`, so lookups at time `≥ T + ttl` miss and the
`KeyError` path of `invoke_ak_api` runs). -/
def cacheLookup (c : ApiCache) (k : CacheKey) (now : ℚ) : Option (Option String) :=
  match c.entries.find? (fun e => decide (e.1 = k)) with
  | some e => if now < e.2.1 then some e.2.2 else none
  | none => none

/-- The entries kept when storing under `k` at time `now`: expired entries
are removed, any previous entry for `k` is removed (it is being replaced),
and least-recently-used entries are evicted from the front until the new
entry fits within `maxsize`. -/
def cacheRoom (c : ApiCache) (k : CacheKey) (now : ℚ) : List (CacheKey × ℚ × Option String) :=
  let alive := c.entries.filter (fun e => decide (now < e.2.1))
  let without := alive.filter (fun e => decide (¬ e.1 = k))
  if c.maxsize ≤ without.length
    then without.drop (without.length + 1 - c.maxsize)
    else without

/-- `api_cache[key] = v` at time `now`: the kept entries followed by the
new entry, appended at the most-recent end with expiry `now + ttl`. -/
def cacheStore (c : ApiCache) (k : CacheKey) (v : Option String) (now : ℚ) : ApiCache :=
  { c with entries := cacheRoom c k now ++ [(k, now + c.ttl, v)] }

/-! ## The provider and `invoke_ak_api` -/

/-- Outcome of the provider call `eval("ak.<item_id>(<eval_str>)")` followed
by `received_df.to_json(...)` in `_fetch`:
either a serialized payload, or `None` (no data), or a raised `KeyError`
(the parameter-shape fault caught by the endpoints), or any other raised
fault (propagates to the framework as a server error). -/
inductive ProviderResult where
  | success (payload : String)
  | noData
  | keyError (detail : String)
  | otherError (detail : String)
  deriving DecidableEq, Repr

/-- A provider binding: what `eval` produces for a given operation name and
optional parameter string. -/
abbrev Provider := String → Option String → ProviderResult

/-- What `invoke_ak_api` produces for the caller: a returned
`(payload, cache_status)` pair, or a raised exception. -/
inductive InvokeResult where
  | ok (payload : Option String) (cacheStatus : String)
  | raisedKeyError (detail : String)
  | raisedOther (detail : String)
  deriving DecidableEq, Repr

/-- Observable effects of one `invoke_ak_api` call: its result, the cache
state afterwards, how many provider calls it made and how many admission
grants (`rate_limiter.acquire()`) it consumed. -/
structure InvokeOut where
  result : InvokeResult
  cache : ApiCache
  providerCalls : ℕ
  grants : ℕ
  deriving DecidableEq, Repr

/-- `invoke_ak_api(item_id, eval_str)`.  With caching disabled it runs
`_fetch()` (one `rate_limiter.acquire()` grant, one provider call) and
reports `DISABLED`.  With caching enabled it first looks up
`hashkey(item_id, eval_str)`; on a hit it returns the cached value with
`HIT` (no provider call, no grant); on a miss (`KeyError`) it runs
`_fetch()`, stores the result — whatever it is, including `None` — under
the key, and reports `MISS`; a fault raised by `_fetch()` propagates and
nothing is stored. -/
def invoke_ak_api (enable_cache : Bool) (cache : ApiCache) (provider : Provider)
    (item_id : String) (eval_str : Option String) (now : ℚ) : InvokeOut :=
  if enable_cache = false then
    match provider item_id eval_str with
    | .success p => ⟨.ok (some p) "DISABLED", cache, 1, 1⟩
    | .noData => ⟨.ok none "DISABLED", cache, 1, 1⟩
    | .keyError d => ⟨.raisedKeyError d, cache, 1, 1⟩
    | .otherError d => ⟨.raisedOther d, cache, 1, 1⟩
  else
    let key : CacheKey := (item_id, eval_str)
    match cacheLookup cache key now with
    | some v => ⟨.ok v "HIT", cache, 0, 0⟩
    | none =>
      match provider item_id eval_str with
      | .success p => ⟨.ok (some p) "MISS", cacheStore cache key (some p) now, 1, 1⟩
      | .noData => ⟨.ok none "MISS", cacheStore cache key none now, 1, 1⟩
      | .keyError d => ⟨.raisedKeyError d, cache, 1, 1⟩
      | .otherError d => ⟨.raisedOther d, cache, 1, 1⟩

/-- The cache status reported by an `invoke_ak_api` result, when it
returned one (a raised exception reports none). -/
def cacheStatusOf : InvokeResult → Option String
  | .ok _ st => some st
  | .raisedKeyError _ => none
  | .raisedOther _ => none

/-! ## The sliding-window rate limiter -/

/-- State of one `RateLimiter` instance: the configuration and the deque of
recorded grant timestamps (oldest first). -/
structure RateLimiter where
  max_requests : ℕ
  window_seconds : ℚ
  request_timestamps : List ℚ
  deriving DecidableEq, Repr

/-- `RateLimiter._clean_old_requests`: pop timestamps from the front while
they are strictly older than `current_time - window_seconds`. -/
def _clean_old_requests (rl : RateLimiter) (current_time : ℚ) : RateLimiter :=
  { rl with request_timestamps :=
      rl.request_timestamps.dropWhile (fun t => decide (t < current_time - rl.window_seconds)) }

/-- The nondeterministic ambient inputs of one `acquire()` call: the value
`now` read by the first `time.time()`, the `random.uniform(0.1, 0.5)`
jitter, and the value `now2` read by the second `time.time()` after the
`time.sleep(wait_time + jitter)` (only consulted on the sleeping path). -/
structure AcquireEnv where
  now : ℚ
  jitter : ℚ
  now2 : ℚ
  deriving DecidableEq, Repr

/-- `RateLimiter.acquire()`, returning the new state and the grant
timestamp appended to the deque.  After cleaning at `now`: below capacity,
`now` is appended at once; at capacity with a positive computed wait the
call sleeps, re-reads the clock (`now2`), re-cleans and appends `now2`;
at capacity with a non-positive computed wait (`wait_time > 0` is false)
it appends `now` without sleeping.  The `none` branch of `head?` is
unreachable for `max_requests ≥ 1` (in Python, `deque[0]` on an empty
deque would raise `IndexError`). -/
def acquire (rl : RateLimiter) (env : AcquireEnv) : RateLimiter × ℚ :=
  let rl1 := _clean_old_requests rl env.now
  if rl.max_requests ≤ rl1.request_timestamps.length then
    match rl1.request_timestamps.head? with
    | some oldest =>
      let wait_time := oldest + rl.window_seconds - env.now
      if 0 < wait_time then
        let rl2 := _clean_old_requests rl1 env.now2
        ({ rl2 with request_timestamps := rl2.request_timestamps ++ [env.now2] }, env.now2)
      else
        ({ rl1 with request_timestamps := rl1.request_timestamps ++ [env.now] }, env.now)
    | none =>
      ({ rl1 with request_timestamps := rl1.request_timestamps ++ [env.now] }, env.now)
  else
    ({ rl1 with request_timestamps := rl1.request_timestamps ++ [env.now] }, env.now)

/-- The least amount of wall-clock time one `acquire` call sleeps, given
its state and ambient inputs: `wait_time + jitter` on the sleeping path
and `0` otherwise. -/
def sleepLowerBound (rl : RateLimiter) (env : AcquireEnv) : ℚ :=
  let rl1 := _clean_old_requests rl env.now
  if rl.max_requests ≤ rl1.request_timestamps.length then
    match rl1.request_timestamps.head? with
    | some oldest =>
      let wait_time := oldest + rl.window_seconds - env.now
      if 0 < wait_time then wait_time + env.jitter else 0
    | none => 0
  else 0

/-- Physical validity of the ambient inputs of one `acquire` call:
the jitter lies in `[0.1, 0.5]` as drawn by `random.uniform(0.1, 0.5)`,
and the clock reading after `time.sleep` has advanced by at least the
slept duration. -/
def envOk (rl : RateLimiter) (env : AcquireEnv) : Bool :=
  decide ((1 : ℚ)/10 ≤ env.jitter) && decide (env.jitter ≤ 1/2) &&
    decide (env.now + sleepLowerBound rl env ≤ env.now2)

/-- Run a serialized sequence of `acquire()` calls, collecting the final
state and the grant timestamps in order. -/
def runAcquires : RateLimiter → List AcquireEnv → RateLimiter × List ℚ
  | rl, [] => (rl, [])
  | rl, e :: es =>
    let s := acquire rl e
    let r := runAcquires s.1 es
    (r.1, s.2 :: r.2)

/-- Validity of a serialized trace of `acquire()` calls starting from
lower time bound `t`: each call's entry clock reading is at least (or,
with `strict = true`, strictly after) the previous grant timestamp, and
each call's ambient inputs are physically valid. -/
def validFrom (strict : Bool) : ℚ → RateLimiter → List AcquireEnv → Bool
  | _, _, [] => true
  | t, rl, e :: es =>
    (if strict then decide (t < e.now) else decide (t ≤ e.now)) && envOk rl e &&
      validFrom strict (acquire rl e).2 (acquire rl e).1 es

/-- Number of grant timestamps in the trailing half-open window `(t - W, t]`. -/
def intervalCount (W : ℚ) (gs : List ℚ) (t : ℚ) : ℕ :=
  gs.countP (fun g => decide (t - W < g) && decide (g ≤ t))

/-- Invariant tying the limiter deque `ts` to the full grant history `gs`
after the last grant (at time `T`): every grant is `≤ T`; the deque is a
suffix of the history whose dropped prefix is strictly older than the
window; the deque holds at most `max_requests + 1` entries, and when it
overflows to `max_requests + 1` its head sits exactly at (or before) the
window edge; and every trailing window already holds at most
`max_requests` grants. -/
structure RLInv (maxR : ℕ) (W T : ℚ) (gs ts : List ℚ) : Prop where
  le_T : ∀ g ∈ gs, g ≤ T
  decomp : ∃ dropped, gs = dropped ++ ts ∧ ∀ x ∈ dropped, x < T - W
  len_le : ts.length ≤ maxR + 1
  overflow : ts.length = maxR + 1 → ∃ h1 rest, ts = h1 :: rest ∧ h1 ≤ T - W
  count_le : ∀ t : ℚ, intervalCount W gs t ≤ maxR

/-! ## Construction of the `eval` parameter string by the two endpoints

The endpoints receive `decode_params = urllib.parse.unquote(str(request.query_params))`;
we embed the constructions as functions of that decoded query string,
working on `List Char` (Python `str.replace` with a single-character
pattern substitutes every occurrence; `split(sep, maxsplit=1)` splits at
the first occurrence; `in` is substring containment). -/

/-- Python `s.replace(c, r)` for a single-character pattern `c`. -/
def replaceChar (s : List Char) (c : Char) (r : List Char) : List Char :=
  s.flatMap (fun ch => if ch = c then r else [ch])

/-- Python `s.split(sep="=", maxsplit=1)` when it yields two parts:
`some (a, b)` with `s = a ++ "=" ++ b` and no `'='` in `a`; `none` when
`s` has no `'='` (then `split` yields one part and indexing `[1]` raises
`IndexError`). -/
def splitFirstEq : List Char → Option (List Char × List Char)
  | [] => none
  | c :: cs =>
    if c = '=' then some ([], cs)
    else (splitFirstEq cs).map (fun p => (c :: p.1, p.2))

/-- Does `s` begin with `p`? -/
def beginsWith : List Char → List Char → Bool
  | [], _ => true
  | _ :: _, [] => false
  | p :: ps, c :: cs => p = c && beginsWith ps cs

/-- Python `pat in s` (substring containment). -/
def containsSub (pat : List Char) : List Char → Bool
  | [] => beginsWith pat []
  | c :: cs => beginsWith pat (c :: cs) || containsSub pat cs

/-- The characters of `"cookie"`. -/
def cookiePat : List Char := ['c', 'o', 'o', 'k', 'i', 'e']

/-- `private_root`'s construction (line 311):
`decode_params.replace("&", '", ').replace("=", '="') + '"'`. -/
def privateEvalStr (s : List Char) : List Char :=
  replaceChar (replaceChar s '&' ['"', ',', ' ']) '=' ['=', '"'] ++ ['"']

/-- `public_root`'s construction (lines 389–399).  When `"cookie"` occurs in
`decode_params`, the string is split at the first `'='` and the whole
remainder is wrapped as one single-quoted argument ( `none` models the
`IndexError` raised when there is no `'='` ); otherwise the `private_root`
construction is used; in both branches every `'+'` is then replaced by a
space. -/
def publicEvalStr (s : List Char) : Option (List Char) :=
  if containsSub cookiePat s then
    match splitFirstEq s with
    | some p =>
      some (replaceChar (p.1 ++ ('=' :: '\'' :: (p.2 ++ ['\'']))) '+' [' '])
    | none => none
  else
    some (replaceChar (privateEvalStr s) '+' [' '])

/-! ## The HTTP endpoints `private_root` and `public_root` -/

/-- What an endpoint produces: a 200 response whose body is the payload
with the `X-Cache-Status` header, a 404 response with an error message
(and the `X-Cache-Status` header when the code sets one), or an uncaught
exception surfaced by the framework as a server error. -/
inductive Response where
  | ok200 (body : String) (cacheStatus : String)
  | notFound (error : String) (cacheStatus : Option String)
  | serverError (detail : String)
  deriving DecidableEq, Repr

/-- Observable effects of one endpoint call. -/
structure EndpointOut where
  response : Response
  cache : ApiCache
  providerCalls : ℕ
  grants : ℕ
  deriving DecidableEq, Repr

/-- The 404 message when `item_id not in dir(ak)`. -/
def unknownOpMsg : String :=
  "未找到该接口，请升级 AKShare 到最新版本并在文档中确认该接口的使用方式：https://akshare.akfamily.xyz"

/-- The 404 message when `invoke_ak_api` returned `None`. -/
def emptyDataMsg : String :=
  "该接口返回数据为空，请确认参数是否正确：https://akshare.akfamily.xyz"

/-- The 404 message built from a caught `KeyError` `e`. -/
def paramErrMsg (detail : String) : String :=
  "请输入正确的参数错误 " ++ detail ++ "，请升级 AKShare 到最新版本并在文档中确认该接口的使用方式：https://akshare.akfamily.xyz"

/-- The `eval_str` argument `private_root` passes to `invoke_ak_api`:
`None` when the query string is empty (`not bool(request.query_params)`),
otherwise the constructed parameter string. -/
def privApiArgs (decode_params : String) : Option String :=
  if decode_params = "" then none
  else some (String.mk (privateEvalStr decode_params.toList))

/-- The `eval_str` argument `public_root` passes to `invoke_ak_api`, or
`none` when constructing it raises `IndexError`. -/
def pubApiArgs (decode_params : String) : Option (Option String) :=
  match publicEvalStr decode_params.toList with
  | some es => some (if decode_params = "" then none else some (String.mk es))
  | none => none

/-- Translation of one `invoke_ak_api` outcome into the endpoint response
(both endpoints render the same statuses and messages; the identical
`try/except` blocks of the empty-query and non-empty-query branches are
shared).  `json.loads` on the payload followed by re-serialization is
modelled as the payload itself. -/
def renderInvoke (out : InvokeOut) : EndpointOut :=
  match out.result with
  | .ok none st => ⟨.notFound emptyDataMsg (some st), out.cache, out.providerCalls, out.grants⟩
  | .ok (some p) st => ⟨.ok200 p st, out.cache, out.providerCalls, out.grants⟩
  | .raisedKeyError d => ⟨.notFound (paramErrMsg d) none, out.cache, out.providerCalls, out.grants⟩
  | .raisedOther d => ⟨.serverError d, out.cache, out.providerCalls, out.grants⟩

/-- `private_root` (lines 284–357): first checks `item_id not in dir(ak)`
and answers 404 without touching the cache, the provider or the rate
limiter; otherwise builds `eval_str`, calls `invoke_ak_api` (with `None`
when the query string is empty) and renders the outcome. -/
def private_root (interface_list : List String) (enable_cache : Bool) (cache : ApiCache)
    (provider : Provider) (item_id : String) (decode_params : String) (now : ℚ) : EndpointOut :=
  if item_id ∈ interface_list then
    renderInvoke (invoke_ak_api enable_cache cache provider item_id (privApiArgs decode_params) now)
  else
    ⟨.notFound unknownOpMsg none, cache, 0, 0⟩

/-- `public_root` (lines 365–459): same shape as `private_root`, except
that its `eval_str` construction differs (cookie handling and `'+'`
replacement) and may itself raise `IndexError`, which propagates as a
server error before any provider call. -/
def public_root (interface_list : List String) (enable_cache : Bool) (cache : ApiCache)
    (provider : Provider) (item_id : String) (decode_params : String) (now : ℚ) : EndpointOut :=
  if item_id ∈ interface_list then
    match pubApiArgs decode_params with
    | some args => renderInvoke (invoke_ak_api enable_cache cache provider item_id args now)
    | none => ⟨.serverError "IndexError: list index out of range", cache, 0, 0⟩
  else
    ⟨.notFound unknownOpMsg none, cache, 0, 0⟩

/-! ## Browser-identity headers and `_patched_request` -/

/-- `DEFAULT_BROWSER_HEADERS` (lines 51–65). -/
def DEFAULT_BROWSER_HEADERS : List (String × String) :=
  [("Accept", "text/html,application/xhtml+xml,application/xml;q=0.9,image/avif,image/webp,image/apng,*/*;q=0.8,application/signed-exchange;v=b3;q=0.7"),
   ("Accept-Language", "zh-CN,zh;q=0.9,en;q=0.8,en-GB;q=0.7,en-US;q=0.6"),
   ("Accept-Encoding", "gzip, deflate, br"),
   ("Connection", "keep-alive"),
   ("Upgrade-Insecure-Requests", "1"),
   ("Sec-Fetch-Dest", "document"),
   ("Sec-Fetch-Mode", "navigate"),
   ("Sec-Fetch-Site", "none"),
   ("Sec-Fetch-User", "?1"),
   ("Cache-Control", "max-age=0"),
   ("Sec-Ch-Ua", "\"Not_A Brand\";v=\"8\", \"Chromium\";v=\"120\", \"Google Chrome\";v=\"120\""),
   ("Sec-Ch-Ua-Mobile", "?0"),
   ("Sec-Ch-Ua-Platform", "\"Windows\"")]

/-- Header dictionaries as ordered association lists; `headerLookup` is
`dict[k]` (first match — well-formed dictionaries have unique keys). -/
def headerLookup (hs : List (String × String)) (k : String) : Option String :=
  (hs.find? (fun p => decide (p.1 = k))).map Prod.snd

/-- `dict[k] = v`: replace the value in place when the key is present,
append the pair otherwise. -/
def setHeader (hs : List (String × String)) (k v : String) : List (String × String) :=
  if hs.any (fun p => decide (p.1 = k)) then
    hs.map (fun p => if p.1 = k then (k, v) else p)
  else hs ++ [(k, v)]

/-- `get_browser_headers()`: a copy of `DEFAULT_BROWSER_HEADERS` with
`headers["User-Agent"]` set to the fixed `CHROME_USER_AGENT` (a value
chosen once at module load, here a parameter `ua`). -/
def get_browser_headers (ua : String) : List (String × String) :=
  setHeader DEFAULT_BROWSER_HEADERS "User-Agent" ua

/-- The header set attached by `_patched_request` (lines 187–193): when the
caller supplied no headers (`"headers" not in kwargs or kwargs["headers"]
is None`), exactly `get_browser_headers()`; otherwise
`browser_headers.update(kwargs["headers"])` — the browser headers updated
per-field by the caller-supplied dictionary, caller values winning. -/
def patchedHeaders (ua : String) (caller : Option (List (String × String))) :
    List (String × String) :=
  match caller with
  | none => get_browser_headers ua
  | some hs => hs.foldl (fun acc p => setHeader acc p.1 p.2) (get_browser_headers ua)

/-! # Theorems -/

/-! ## Cache lemmas -/

theorem mem_cacheRoom_ne_key (c : ApiCache) (k : CacheKey) (now : ℚ)
    (x : CacheKey × ℚ × Option String) (hx : x ∈ cacheRoom c k now) :
    ¬ x.1 = k := by
  unfold cacheRoom at hx
  simp only at hx
  have hx' : x ∈ (c.entries.filter (fun e => decide (now < e.2.1))).filter
      (fun e => decide (¬ e.1 = k)) := by
    by_cases hc : c.maxsize ≤ ((c.entries.filter (fun e => decide (now < e.2.1))).filter
        (fun e => decide (¬ e.1 = k))).length
    · rw [if_pos hc] at hx
      exact List.mem_of_mem_drop hx
    · rwa [if_neg hc] at hx
  have := List.mem_filter.mp hx'
  simpa using this.2

theorem cacheLookup_cacheStore_self (c : ApiCache) (k : CacheKey) (v : Option String)
    (T now : ℚ) :
    cacheLookup (cacheStore c k v T) k now = if now < T + c.ttl then some v else none := by
  unfold cacheStore cacheLookup
  simp only
  rw [List.find?_append]
  have hnone : (cacheRoom c k T).find? (fun e => decide (e.1 = k)) = none := by
    rw [List.find?_eq_none]
    intro x hx
    simpa using mem_cacheRoom_ne_key c k T x hx
  rw [hnone]
  simp

theorem cacheStore_length_le (c : ApiCache) (k : CacheKey) (v : Option String) (T : ℚ)
    (hsize : 1 ≤ c.maxsize) :
    (cacheStore c k v T).entries.length ≤ c.maxsize := by
  unfold cacheStore cacheRoom
  simp only [List.length_append, List.length_cons, List.length_nil]
  set without := (c.entries.filter (fun e => decide (T < e.2.1))).filter
    (fun e => decide (¬ e.1 = k)) with hw
  by_cases hc : c.maxsize ≤ without.length
  · rw [if_pos hc, List.length_drop]
    omega
  · rw [if_neg hc]
    omega

/-! ## C7: disabled cache is a no-op -/

/-- C7: with caching disabled, for every `(operationId, parameter string)`
pair, `invoke_ak_api` leaves the cache unchanged (it never reads or writes
it), always invokes the provider (one call, one admission grant), and
whenever it returns a cache status at all, that status is `DISABLED` and
never `MISS`. -/
theorem invoke_cache_disabled_frame (c : ApiCache) (provider : Provider)
    (item : String) (es : Option String) (now : ℚ) :
    (invoke_ak_api false c provider item es now).cache = c ∧
    (invoke_ak_api false c provider item es now).providerCalls = 1 ∧
    (invoke_ak_api false c provider item es now).grants = 1 ∧
    (cacheStatusOf (invoke_ak_api false c provider item es now).result = some "DISABLED" ∨
      cacheStatusOf (invoke_ak_api false c provider item es now).result = none) := by
  cases hp : provider item es <;> simp [invoke_ak_api, hp, cacheStatusOf]

/-! ## C3: when the cache is written -/

/-- C3 counterexample: with caching enabled and an empty cache, an
invocation whose outcome is `EmptyResult` (the provider returned no data,
`_fetch()` returned `None`) does NOT leave the cache unchanged: the `None`
result is stored under the key, contradicting the claim that a new cache
entry is created exactly on a `Success` payload. -/
theorem invoke_stores_empty_result :
    (invoke_ak_api true ⟨128, 3600, []⟩ (fun _ _ => .noData) "stock_dxsyl_em" none 0).result
      = .ok none "MISS" ∧
    (invoke_ak_api true ⟨128, 3600, []⟩ (fun _ _ => .noData) "stock_dxsyl_em" none 0).cache.entries
      = [(("stock_dxsyl_em", none), 3600, none)] := by
  refine ⟨by decide, ?_⟩
  norm_num [invoke_ak_api, cacheLookup, cacheStore, cacheRoom]

/-- C3 amended: with caching enabled, a cache entry is created exactly when
the provider call RETURNS (a `Success` payload, or `None` for
`EmptyResult`, which is cached as an empty marker); an invocation whose
provider call raises (`InvalidParameters` or `ProviderFailure`) leaves the
cache unchanged, as do a cache hit and a disabled cache. -/
theorem invoke_cache_update_on_return (c : ApiCache) (provider : Provider)
    (item : String) (es : Option String) (now : ℚ) :
    (cacheLookup c (item, es) now = none →
      (∀ p, provider item es = .success p →
        (invoke_ak_api true c provider item es now).cache
          = cacheStore c (item, es) (some p) now) ∧
      (provider item es = .noData →
        (invoke_ak_api true c provider item es now).cache
          = cacheStore c (item, es) none now) ∧
      (∀ d, provider item es = .keyError d →
        (invoke_ak_api true c provider item es now).cache = c) ∧
      (∀ d, provider item es = .otherError d →
        (invoke_ak_api true c provider item es now).cache = c)) ∧
    (∀ v, cacheLookup c (item, es) now = some v →
      (invoke_ak_api true c provider item es now).cache = c) ∧
    (invoke_ak_api false c provider item es now).cache = c := by
  refine ⟨fun hm => ⟨fun p hp => ?_, fun hp => ?_, fun d hp => ?_, fun d hp => ?_⟩,
    fun v hv => ?_, ?_⟩
  · simp [invoke_ak_api, hm, hp]
  · simp [invoke_ak_api, hm, hp]
  · simp [invoke_ak_api, hm, hp]
  · simp [invoke_ak_api, hm, hp]
  · simp [invoke_ak_api, hv]
  · cases hp : provider item es <;> simp [invoke_ak_api, hp]

/-- C3 amended, witness at a concrete input: storing happens for a
returning provider call on a miss. -/
theorem invoke_cache_update_on_return_witness :
    (invoke_ak_api true ⟨128, 3600, []⟩ (fun _ _ => .success "[1]") "foo" none 0).cache
      = cacheStore ⟨128, 3600, []⟩ ("foo", none) (some "[1]") 0 :=
  ((invoke_cache_update_on_return ⟨128, 3600, []⟩ (fun _ _ => .success "[1]")
    "foo" none 0).1 (by decide)).1 "[1]" (by decide)

/-! ## C5: TTL expiry and capacity bound -/

/-- C5: a cache entry inserted at time `T` is unreachable for any lookup at
time `≥ T + ttl` — the lookup misses, and an `invoke_ak_api` on that key
at such a time performs a fresh provider invocation; moreover a store
never leaves the cache with more than `maxsize` entries (least-recently
used entries are evicted from the front on overflow). -/
theorem cache_ttl_expiry_and_capacity (c : ApiCache) (k : CacheKey) (v : Option String)
    (provider : Provider) (T now : ℚ) (hsize : 1 ≤ c.maxsize) (hexp : T + c.ttl ≤ now) :
    cacheLookup (cacheStore c k v T) k now = none ∧
    (invoke_ak_api true (cacheStore c k v T) provider k.1 k.2 now).providerCalls = 1 ∧
    (cacheStore c k v T).entries.length ≤ c.maxsize := by
  have hmiss : cacheLookup (cacheStore c k v T) k now = none := by
    rw [cacheLookup_cacheStore_self]
    rw [if_neg (by linarith)]
  refine ⟨hmiss, ?_, cacheStore_length_le c k v T hsize⟩
  cases hp : provider k.1 k.2 <;> simp [invoke_ak_api, hmiss, hp]

/-- C5 witness at a concrete input. -/
theorem cache_ttl_expiry_and_capacity_witness :
    cacheLookup (cacheStore ⟨128, 3600, []⟩ ("foo", none) (some "[1]") 0) ("foo", none) 3600
      = none ∧
    (cacheStore ⟨128, 3600, []⟩ ("foo", none) (some "[1]") 0).entries.length ≤ 128 := by
  have h := cache_ttl_expiry_and_capacity ⟨128, 3600, []⟩ ("foo", none) (some "[1]")
    (fun _ _ => .success "[1]") 0 3600 (by decide) (by norm_num)
  exact ⟨h.1, h.2.2⟩

/-! ## C2: cache idempotence -/

/-- C2: with caching enabled, for a fixed `(operationId, parameter string)`
pair whose provider call succeeds, two sequential `invoke_ak_api` calls
within the TTL return identical payloads; the first reports `MISS` when
the key was not cached (`HIT` if it was pre-seeded, with no provider call),
and the second reports `HIT` and performs no provider invocation and no
admission grant. -/
theorem invoke_cache_idempotent (c : ApiCache) (provider : Provider)
    (item : String) (es : Option String) (p : String) (t1 t2 : ℚ)
    (hp : provider item es = .success p) (_h12 : t1 ≤ t2) (h2 : t2 < t1 + c.ttl) :
    (cacheLookup c (item, es) t1 = none →
      (invoke_ak_api true c provider item es t1).result = .ok (some p) "MISS" ∧
      (invoke_ak_api true (invoke_ak_api true c provider item es t1).cache
        provider item es t2).result = .ok (some p) "HIT" ∧
      (invoke_ak_api true (invoke_ak_api true c provider item es t1).cache
        provider item es t2).providerCalls = 0 ∧
      (invoke_ak_api true (invoke_ak_api true c provider item es t1).cache
        provider item es t2).grants = 0) ∧
    (∀ v, cacheLookup c (item, es) t1 = some v →
      (invoke_ak_api true c provider item es t1).result = .ok v "HIT" ∧
      (invoke_ak_api true c provider item es t1).providerCalls = 0 ∧
      (invoke_ak_api true c provider item es t1).grants = 0) := by
  constructor
  · intro hm
    have hc1 : (invoke_ak_api true c provider item es t1).cache
        = cacheStore c (item, es) (some p) t1 := by
      simp [invoke_ak_api, hm, hp]
    have hl2 : cacheLookup (cacheStore c (item, es) (some p) t1) (item, es) t2
        = some (some p) := by
      rw [cacheLookup_cacheStore_self, if_pos h2]
    refine ⟨by simp [invoke_ak_api, hm, hp], ?_, ?_, ?_⟩ <;>
      rw [hc1] <;> simp [invoke_ak_api, hl2]
  · intro v hv
    refine ⟨?_, ?_, ?_⟩ <;> simp [invoke_ak_api, hv]

/-- C2 witness at a concrete input: a fresh cache, a constant provider, the
second call one second after the first. -/
theorem invoke_cache_idempotent_witness :
    (invoke_ak_api true ⟨128, 3600, []⟩ (fun _ _ => .success "[1]") "foo" none 0).result
      = .ok (some "[1]") "MISS" ∧
    (invoke_ak_api true
      (invoke_ak_api true ⟨128, 3600, []⟩ (fun _ _ => .success "[1]") "foo" none 0).cache
      (fun _ _ => .success "[1]") "foo" none 1).result = .ok (some "[1]") "HIT" :=
  have h := (invoke_cache_idempotent ⟨128, 3600, []⟩ (fun _ _ => .success "[1]")
    "foo" none "[1]" 0 1 (by decide) (by norm_num) (by norm_num)).1 (by decide)
  ⟨h.1, h.2.1⟩

/-! ## C6: unknown operations -/

/-- C6: for every `operationId` not in the provider's capability set
(`dir(ak)`) at call time, both endpoints answer the not-found
`UnknownOperation` response, regardless of the cache contents, the cache
switch or the query string, with no provider call, no admission grant and
an unchanged cache. -/
theorem unknown_operation_rejected (interface_list : List String) (enable_cache : Bool)
    (c : ApiCache) (provider : Provider) (item : String) (q : String) (now : ℚ)
    (h : item ∉ interface_list) :
    private_root interface_list enable_cache c provider item q now
      = ⟨.notFound unknownOpMsg none, c, 0, 0⟩ ∧
    public_root interface_list enable_cache c provider item q now
      = ⟨.notFound unknownOpMsg none, c, 0, 0⟩ := by
  constructor <;> simp [private_root, public_root, h]

/-- C6 witness at a concrete input. -/
theorem unknown_operation_rejected_witness :
    private_root ["stock_dxsyl_em"] true ⟨128, 3600, []⟩ (fun _ _ => .success "[1]")
      "not_a_real_operation" "" 0 = ⟨.notFound unknownOpMsg none, ⟨128, 3600, []⟩, 0, 0⟩ :=
  (unknown_operation_rejected ["stock_dxsyl_em"] true ⟨128, 3600, []⟩
    (fun _ _ => .success "[1]") "not_a_real_operation" "" 0 (by decide)).1

/-! ## C4: order of capability check and cache lookup -/

/-- C4 counterexample: an `operationId` absent from the capability set but
validly pre-seeded in the cache is rejected as `UnknownOperation`; the
cache lookup is never attempted and no `HIT` is returned, contradicting
the claim that with caching enabled the lookup comes first and a hit is
returned without the capability check.  (The pre-seeded entry is a live
hit at time `0`, as the first conjunct shows.) -/
theorem capability_checked_before_cache_cex :
    cacheLookup ⟨128, 3600, [(("bar", none), 100, some "[9]")]⟩ ("bar", none) 0
      = some (some "[9]") ∧
    private_root ["foo"] true ⟨128, 3600, [(("bar", none), 100, some "[9]")]⟩
      (fun _ _ => .success "[1]") "bar" "" 0
      = ⟨.notFound unknownOpMsg none, ⟨128, 3600, [(("bar", none), 100, some "[9]")]⟩, 0, 0⟩ := by
  constructor <;> decide

/-- C4 amended: the endpoints validate capability-set membership FIRST: a
non-member is answered `UnknownOperation` with no cache interaction
regardless of cache contents; only for a member (with caching enabled)
is the Result Cache lookup on the canonical key attempted, and a hit is
then returned as the cached payload with status `HIT`, with no provider
call and no admission grant. -/
theorem capability_check_then_cache (interface_list : List String) (c : ApiCache)
    (provider : Provider) (item : String) (q : String) (now : ℚ) :
    (item ∉ interface_list →
      private_root interface_list true c provider item q now
        = ⟨.notFound unknownOpMsg none, c, 0, 0⟩) ∧
    (item ∈ interface_list → ∀ p : String,
      cacheLookup c (item, privApiArgs q) now = some (some p) →
      private_root interface_list true c provider item q now
        = ⟨.ok200 p "HIT", c, 0, 0⟩) ∧
    (item ∈ interface_list → ∀ a (p : String), pubApiArgs q = some a →
      cacheLookup c (item, a) now = some (some p) →
      public_root interface_list true c provider item q now
        = ⟨.ok200 p "HIT", c, 0, 0⟩) := by
  refine ⟨fun h => by simp [private_root, h], fun h p hl => ?_, fun h a p ha hl => ?_⟩
  · simp [private_root, h, invoke_ak_api, hl, renderInvoke]
  · simp [public_root, h, ha, invoke_ak_api, hl, renderInvoke]

/-- C4 amended, witness at a concrete input: the member case returns the
pre-seeded payload as a `HIT`. -/
theorem capability_check_then_cache_witness :
    private_root ["bar"] true ⟨128, 3600, [(("bar", none), 100, some "[9]")]⟩
      (fun _ _ => .success "[1]") "bar" "" 0
      = ⟨.ok200 "[9]" "HIT", ⟨128, 3600, [(("bar", none), 100, some "[9]")]⟩, 0, 0⟩ :=
  (capability_check_then_cache ["bar"] ⟨128, 3600, [(("bar", none), 100, some "[9]")]⟩
    (fun _ _ => .success "[1]") "bar" "" 0).2.1 (by decide) "[9]" (by decide)

/-! ## C8: provider fault classification -/

/-- C8: for an invocation (capability present, cache disabled or missing)
whose provider call raises the parameter-shape fault (`KeyError`), both
endpoints answer a not-found response whose message contains the error
detail, with no retry (exactly one provider call) and no cache entry
created; any other provider-raised fault propagates as a server-class
error, also with no retry and no cache write. -/
theorem provider_fault_classification (interface_list : List String) (enable_cache : Bool)
    (c : ApiCache) (provider : Provider) (item : String) (q : String) (now : ℚ) (d : String)
    (hmem : item ∈ interface_list)
    (hmiss : enable_cache = false ∨ cacheLookup c (item, privApiArgs q) now = none) :
    (provider item (privApiArgs q) = .keyError d →
      private_root interface_list enable_cache c provider item q now
        = ⟨.notFound (paramErrMsg d) none, c, 1, 1⟩ ∧
      paramErrMsg d = "请输入正确的参数错误 " ++ d
        ++ "，请升级 AKShare 到最新版本并在文档中确认该接口的使用方式：https://akshare.akfamily.xyz") ∧
    (provider item (privApiArgs q) = .otherError d →
      private_root interface_list enable_cache c provider item q now
        = ⟨.serverError d, c, 1, 1⟩) ∧
    (∀ a, pubApiArgs q = some a →
      (enable_cache = false ∨ cacheLookup c (item, a) now = none) →
      provider item a = .keyError d →
      public_root interface_list enable_cache c provider item q now
        = ⟨.notFound (paramErrMsg d) none, c, 1, 1⟩) ∧
    (∀ a, pubApiArgs q = some a →
      (enable_cache = false ∨ cacheLookup c (item, a) now = none) →
      provider item a = .otherError d →
      public_root interface_list enable_cache c provider item q now
        = ⟨.serverError d, c, 1, 1⟩) := by
  refine ⟨fun hp => ⟨?_, rfl⟩, fun hp => ?_, fun a ha hm2 hp => ?_, fun a ha hm2 hp => ?_⟩
  · rcases hmiss with hm | hm
    · subst hm
      simp [private_root, hmem, invoke_ak_api, hp, renderInvoke]
    · cases enable_cache
      · simp [private_root, hmem, invoke_ak_api, hp, renderInvoke]
      · simp [private_root, hmem, invoke_ak_api, hm, hp, renderInvoke]
  · rcases hmiss with hm | hm
    · subst hm
      simp [private_root, hmem, invoke_ak_api, hp, renderInvoke]
    · cases enable_cache
      · simp [private_root, hmem, invoke_ak_api, hp, renderInvoke]
      · simp [private_root, hmem, invoke_ak_api, hm, hp, renderInvoke]
  · rcases hm2 with hm | hm
    · subst hm
      simp [public_root, hmem, ha, invoke_ak_api, hp, renderInvoke]
    · cases enable_cache
      · simp [public_root, hmem, ha, invoke_ak_api, hp, renderInvoke]
      · simp [public_root, hmem, ha, invoke_ak_api, hm, hp, renderInvoke]
  · rcases hm2 with hm | hm
    · subst hm
      simp [public_root, hmem, ha, invoke_ak_api, hp, renderInvoke]
    · cases enable_cache
      · simp [public_root, hmem, ha, invoke_ak_api, hp, renderInvoke]
      · simp [public_root, hmem, ha, invoke_ak_api, hm, hp, renderInvoke]

/-- C8 witness at a concrete input. -/
theorem provider_fault_classification_witness :
    private_root ["foo"] true ⟨128, 3600, []⟩ (fun _ _ => .keyError "KeyError") "foo" "" 0
      = ⟨.notFound (paramErrMsg "KeyError") none, ⟨128, 3600, []⟩, 1, 1⟩ :=
  ((provider_fault_classification ["foo"] true ⟨128, 3600, []⟩
    (fun _ _ => .keyError "KeyError") "foo" "" 0 "KeyError" (by decide)
    (Or.inr (by decide))).1 (by decide)).1

/-! ## C9: header merging in `_patched_request` -/

theorem headerLookup_eq_none_of_not_mem (hs : List (String × String)) (k : String)
    (h : k ∉ hs.map Prod.fst) : headerLookup hs k = none := by
  unfold headerLookup
  rw [List.find?_eq_none.mpr]
  · rfl
  · intro p hp hdec
    exact h (List.mem_map.mpr ⟨p, hp, by simpa using hdec⟩)

theorem find?_map_update_self (t : List (String × String)) (k' v' : String)
    (hany : t.any (fun p => decide (p.1 = k')) = true) :
    (t.map (fun p => if p.1 = k' then (k', v') else p)).find? (fun p => decide (p.1 = k'))
      = some (k', v') := by
  induction t with
  | nil => simp at hany
  | cons p t ih =>
    by_cases hp : p.1 = k'
    · simp [List.find?_cons, hp]
    · have hta : t.any (fun p => decide (p.1 = k')) = true := by
        simpa [hp] using hany
      simpa [List.find?_cons, hp] using ih hta

theorem find?_map_update_ne (t : List (String × String)) (k' v' k : String)
    (h : ¬ k = k') :
    (t.map (fun p => if p.1 = k' then (k', v') else p)).find? (fun p => decide (p.1 = k))
      = t.find? (fun p => decide (p.1 = k)) := by
  induction t with
  | nil => rfl
  | cons p t ih =>
    by_cases hp : p.1 = k'
    · have h1 : ¬ k' = k := fun hh => h hh.symm
      simp [List.find?_cons, hp, h1, ih]
    · simp [List.find?_cons, hp, ih]

theorem headerLookup_setHeader_self (hs : List (String × String)) (k' v' : String) :
    headerLookup (setHeader hs k' v') k' = some v' := by
  unfold setHeader headerLookup
  by_cases hany : hs.any (fun p => decide (p.1 = k')) = true
  · rw [if_pos hany, find?_map_update_self hs k' v' hany]
    rfl
  · rw [if_neg hany, List.find?_append, List.find?_eq_none.mpr]
    · simp
    · intro p hp hdec
      rw [List.any_eq_true] at hany
      exact hany ⟨p, hp, hdec⟩

theorem headerLookup_setHeader_ne (hs : List (String × String)) (k' v' k : String)
    (h : ¬ k = k') : headerLookup (setHeader hs k' v') k = headerLookup hs k := by
  unfold setHeader headerLookup
  by_cases hany : hs.any (fun p => decide (p.1 = k')) = true
  · rw [if_pos hany, find?_map_update_ne hs k' v' k h]
  · rw [if_neg hany, List.find?_append]
    cases hfind : hs.find? (fun p => decide (p.1 = k)) with
    | some p => simp [hfind]
    | none =>
      have h1 : ¬ k' = k := fun hh => h hh.symm
      simp [hfind, List.find?_cons, h1]

theorem headerLookup_fold_update (caller : List (String × String)) :
    ∀ (init : List (String × String)) (k : String),
    (caller.map Prod.fst).Nodup →
    headerLookup (caller.foldl (fun acc p => setHeader acc p.1 p.2) init) k
      = (match headerLookup caller k with
         | some v => some v
         | none => headerLookup init k) := by
  induction caller with
  | nil => intro init k _; rfl
  | cons p t ih =>
    intro init k hnd
    rw [List.map_cons, List.nodup_cons] at hnd
    rw [List.foldl_cons, ih (setHeader init p.1 p.2) k hnd.2]
    by_cases hk : k = p.1
    · have ht : headerLookup t k = none := by
        rw [hk]
        exact headerLookup_eq_none_of_not_mem t p.1 hnd.1
      have hcons : headerLookup (p :: t) k = some p.2 := by
        unfold headerLookup
        simp [List.find?_cons, hk]
      rw [ht, hcons]
      show headerLookup (setHeader init p.1 p.2) k = some p.2
      rw [hk]
      exact headerLookup_setHeader_self init p.1 p.2
    · have hcons : headerLookup (p :: t) k = headerLookup t k := by
        unfold headerLookup
        have : ¬ p.1 = k := fun hh => hk hh.symm
        simp [List.find?_cons, this]
      rw [hcons, headerLookup_setHeader_ne init p.1 p.2 k hk]

/-- C9: for every outbound call through the patched `requests` layer, the
resulting header dictionary behaves field-wise as the browser identity
header set overridden by the caller-supplied fields (a caller-supplied
value wins on its own field, every other field keeps the browser identity
value); and when the caller supplied no headers at all, exactly the
browser identity header set is attached. -/
theorem patched_request_headers (ua : String) (caller : List (String × String))
    (k : String) (hnd : (caller.map Prod.fst).Nodup) :
    headerLookup (patchedHeaders ua (some caller)) k
      = (match headerLookup caller k with
         | some v => some v
         | none => headerLookup (get_browser_headers ua) k) ∧
    patchedHeaders ua none = get_browser_headers ua :=
  ⟨headerLookup_fold_update caller (get_browser_headers ua) k hnd, rfl⟩

/-- C9 witness at a concrete input: a caller-supplied `Accept` wins, and
an untouched browser field survives. -/
theorem patched_request_headers_witness :
    headerLookup (patchedHeaders "UA-TEST" (some [("Accept", "application/json")])) "Accept"
      = some "application/json" ∧
    headerLookup (patchedHeaders "UA-TEST" (some [("Accept", "application/json")])) "Connection"
      = some "keep-alive" := by
  have h1 := (patched_request_headers "UA-TEST" [("Accept", "application/json")]
    "Accept" (by decide)).1
  have h2 := (patched_request_headers "UA-TEST" [("Accept", "application/json")]
    "Connection" (by decide)).1
  rw [h1, h2]
  constructor <;> decide

/-! ## C10: the two endpoints build different `eval` strings -/

theorem mem_replaceChar (s : List Char) (c : Char) (r : List Char) (x : Char)
    (hx : x ∈ s) (hne : ¬ x = c) : x ∈ replaceChar s c r := by
  unfold replaceChar
  rw [List.mem_flatMap]
  exact ⟨x, hx, by simp [hne]⟩

theorem not_mem_replaceChar_self (s : List Char) (c : Char) (r : List Char)
    (hr : c ∉ r) : c ∉ replaceChar s c r := by
  unfold replaceChar
  rw [List.mem_flatMap]
  rintro ⟨a, -, ha⟩
  by_cases hac : a = c
  · rw [if_pos hac] at ha
    exact hr ha
  · rw [if_neg hac] at ha
    rw [List.mem_singleton] at ha
    exact hac (ha ▸ rfl)

theorem not_mem_replaceChar (s : List Char) (c : Char) (r : List Char) (x : Char)
    (hs : x ∉ s) (hr : x ∉ r) : x ∉ replaceChar s c r := by
  unfold replaceChar
  rw [List.mem_flatMap]
  rintro ⟨a, hha, ha⟩
  by_cases hac : a = c
  · rw [if_pos hac] at ha
    exact hr ha
  · rw [if_neg hac] at ha
    rw [List.mem_singleton] at ha
    exact hs (ha ▸ hha)

theorem replaceChar_append (a b : List Char) (c : Char) (r : List Char) :
    replaceChar (a ++ b) c r = replaceChar a c r ++ replaceChar b c r := by
  unfold replaceChar
  rw [List.flatMap_append]

theorem replaceChar_cons (x : Char) (t : List Char) (c : Char) (r : List Char) :
    replaceChar (x :: t) c r = (if x = c then r else [x]) ++ replaceChar t c r := by
  unfold replaceChar
  rw [List.flatMap_cons]

theorem replaceChar_of_not_mem (s : List Char) (c : Char) (r : List Char)
    (h : c ∉ s) : replaceChar s c r = s := by
  induction s with
  | nil => rfl
  | cons x t ih =>
    rw [replaceChar_cons]
    have hx : ¬ x = c := fun hh => h (hh ▸ List.mem_cons_self x t)
    rw [if_neg hx, ih (fun hh => h (List.mem_cons_of_mem x hh))]
    rfl

theorem splitFirstEq_spec (s : List Char) :
    ∀ a b, splitFirstEq s = some (a, b) → s = a ++ '=' :: b ∧ '=' ∉ a := by
  induction s with
  | nil => intro a b h; exact absurd h (by simp [splitFirstEq])
  | cons x t ih =>
    intro a b h
    unfold splitFirstEq at h
    by_cases hx : x = '='
    · rw [if_pos hx] at h
      obtain ⟨ha, hb⟩ := Prod.mk.injEq .. ▸ Option.some.inj h
      subst ha; subst hb
      simp [hx]
    · rw [if_neg hx] at h
      cases hsp : splitFirstEq t with
      | none => rw [hsp] at h; exact absurd h (by simp)
      | some pr =>
        rw [hsp] at h
        have hab := Option.some.inj h
        have ha : x :: pr.1 = a := congrArg Prod.fst hab
        have hb : pr.2 = b := congrArg Prod.snd hab
        obtain ⟨ht, hnm⟩ := ih pr.1 pr.2 (by rw [hsp])
        subst hb
        constructor
        · rw [← ha, ht]
          rfl
        · rw [← ha]
          intro hmem
          rcases List.mem_cons.mp hmem with hh | hh
          · exact hx hh.symm
          · exact hnm hh

/-- C10: `private_root` and `public_root` do not build the provider call
expression identically — for every decoded query string containing the
character `'+'` or the substring `"cookie"`, the parameter string
`public_root` constructs (when its construction does not raise) differs
from the one `private_root` constructs, so the same request can invoke
the provider with different arguments and different cache keys depending
on the endpoint. -/
theorem endpoint_eval_divergence (s : List Char)
    (h : '+' ∈ s ∨ containsSub cookiePat s = true) :
    publicEvalStr s ≠ some (privateEvalStr s) := by
  by_cases hplus : '+' ∈ s
  · -- the private construction keeps every '+', the public one erases all
    have hpriv : '+' ∈ privateEvalStr s := by
      unfold privateEvalStr
      exact List.mem_append_left _
        (mem_replaceChar _ _ _ _ (mem_replaceChar _ _ _ _ hplus (by decide)) (by decide))
    by_cases hc : containsSub cookiePat s = true
    · cases hsp : splitFirstEq s with
      | none =>
        have hpub_eq : publicEvalStr s = none := by
          unfold publicEvalStr
          rw [if_pos hc, hsp]
        simp [hpub_eq]
      | some pr =>
        have hpub_eq : publicEvalStr s
            = some (replaceChar (pr.1 ++ ('=' :: '\'' :: (pr.2 ++ ['\'']))) '+' [' ']) := by
          unfold publicEvalStr
          rw [if_pos hc, hsp]
        rw [hpub_eq]
        intro heq
        have heq' := Option.some.inj heq
        have hnp : '+' ∉ replaceChar (pr.1 ++ ('=' :: '\'' :: (pr.2 ++ ['\'']))) '+' [' '] :=
          not_mem_replaceChar_self _ _ _ (by decide)
        rw [heq'] at hnp
        exact hnp hpriv
    · have hpub_eq : publicEvalStr s = some (replaceChar (privateEvalStr s) '+' [' ']) := by
        unfold publicEvalStr
        rw [if_neg hc]
      rw [hpub_eq]
      intro heq
      have heq' := Option.some.inj heq
      have hnp : '+' ∉ replaceChar (privateEvalStr s) '+' [' '] :=
        not_mem_replaceChar_self _ _ _ (by decide)
      rw [heq'] at hnp
      exact hnp hpriv
  · have hc : containsSub cookiePat s = true := h.resolve_left hplus
    cases hsp : splitFirstEq s with
    | none =>
      have hpub_eq : publicEvalStr s = none := by
        unfold publicEvalStr
        rw [if_pos hc, hsp]
      simp [hpub_eq]
    | some pr =>
      have hpub_eq : publicEvalStr s
          = some (replaceChar (pr.1 ++ ('=' :: '\'' :: (pr.2 ++ ['\'']))) '+' [' ']) := by
        unfold publicEvalStr
        rw [if_pos hc, hsp]
      rw [hpub_eq]
      obtain ⟨hs_eq, hnea⟩ := splitFirstEq_spec s pr.1 pr.2 (by rw [hsp])
      by_cases hamp : '&' ∈ s
      · -- the public construction keeps every '&', the private one erases all
        intro heq
        have heq' := Option.some.inj heq
        have hsplit : '&' ∈ pr.1 ∨ '&' ∈ pr.2 := by
          have hmem := hs_eq ▸ hamp
          rcases List.mem_append.mp hmem with h1 | h1
          · exact Or.inl h1
          · rcases List.mem_cons.mp h1 with h2 | h2
            · exact absurd h2 (by decide)
            · exact Or.inr h2
        have hpub : '&' ∈ replaceChar (pr.1 ++ ('=' :: '\'' :: (pr.2 ++ ['\'']))) '+' [' '] := by
          apply mem_replaceChar _ _ _ _ _ (by decide)
          rcases hsplit with h1 | h1
          · exact List.mem_append_left _ h1
          · refine List.mem_append_right _ ?_
            exact List.mem_cons_of_mem _ (List.mem_cons_of_mem _ (List.mem_append_left _ h1))
        have hnpriv : '&' ∉ privateEvalStr s := by
          unfold privateEvalStr
          intro hmem
          rcases List.mem_append.mp hmem with h1 | h1
          · exact not_mem_replaceChar _ _ _ _
              (not_mem_replaceChar_self _ _ _ (by decide)) (by decide) h1
          · exact absurd h1 (by decide)
        rw [heq'] at hpub
        exact hnpriv hpub
      · -- no '+' and no '&': the strings differ right after the first '='
        have hplus1 : '+' ∉ pr.1 ++ ('=' :: '\'' :: (pr.2 ++ ['\''])) := by
          intro hmem
          rcases List.mem_append.mp hmem with h1 | h1
          · exact hplus (hs_eq ▸ List.mem_append_left _ h1)
          · rcases List.mem_cons.mp h1 with h2 | h2
            · exact absurd h2 (by decide)
            · rcases List.mem_cons.mp h2 with h3 | h3
              · exact absurd h3 (by decide)
              · rcases List.mem_append.mp h3 with h4 | h4
                · exact hplus (hs_eq ▸ List.mem_append_right _ (List.mem_cons_of_mem _ h4))
                · exact absurd h4 (by decide)
        rw [replaceChar_of_not_mem _ _ _ hplus1]
        have hpriv_eq : privateEvalStr s
            = pr.1 ++ ('=' :: '"' :: (replaceChar pr.2 '=' ['=', '"'] ++ ['"'])) := by
          unfold privateEvalStr
          rw [replaceChar_of_not_mem s '&' _ hamp, hs_eq, replaceChar_append,
            replaceChar_of_not_mem pr.1 '=' _ hnea, replaceChar_cons]
          simp
        rw [hpriv_eq]
        intro heq
        have heq' := Option.some.inj heq
        have hcan := List.append_cancel_left heq'
        rw [List.cons.injEq] at hcan
        have h2 := hcan.2
        rw [List.cons.injEq] at h2
        exact absurd h2.1 (by decide)

/-- C10 witness at a concrete input: a query value containing a space
encoded as `'+'`. -/
theorem endpoint_eval_divergence_witness :
    publicEvalStr ("symbol=a+b".toList) ≠ some (privateEvalStr ("symbol=a+b".toList)) :=
  endpoint_eval_divergence _ (Or.inl (by decide))

/-! ## C1: rate limiter lemmas -/

theorem acquire_eq (maxR : ℕ) (W : ℚ) (ts : List ℚ) (e : AcquireEnv) :
    acquire ⟨maxR, W, ts⟩ e =
      if maxR ≤ (ts.dropWhile (fun t => decide (t < e.now - W))).length then
        match (ts.dropWhile (fun t => decide (t < e.now - W))).head? with
        | some oldest =>
          if 0 < oldest + W - e.now then
            (⟨maxR, W, ((ts.dropWhile (fun t => decide (t < e.now - W))).dropWhile
                (fun t => decide (t < e.now2 - W))) ++ [e.now2]⟩, e.now2)
          else (⟨maxR, W, (ts.dropWhile (fun t => decide (t < e.now - W))) ++ [e.now]⟩, e.now)
        | none => (⟨maxR, W, (ts.dropWhile (fun t => decide (t < e.now - W))) ++ [e.now]⟩, e.now)
      else (⟨maxR, W, (ts.dropWhile (fun t => decide (t < e.now - W))) ++ [e.now]⟩, e.now) := rfl

theorem sleepLowerBound_eq (maxR : ℕ) (W : ℚ) (ts : List ℚ) (e : AcquireEnv) :
    sleepLowerBound ⟨maxR, W, ts⟩ e =
      if maxR ≤ (ts.dropWhile (fun t => decide (t < e.now - W))).length then
        match (ts.dropWhile (fun t => decide (t < e.now - W))).head? with
        | some oldest =>
          if 0 < oldest + W - e.now then oldest + W - e.now + e.jitter else 0
        | none => 0
      else 0 := rfl

theorem acquire_fields (maxR : ℕ) (W : ℚ) (ts : List ℚ) (e : AcquireEnv) :
    (acquire ⟨maxR, W, ts⟩ e).1
      = ⟨maxR, W, (acquire ⟨maxR, W, ts⟩ e).1.request_timestamps⟩ := by
  rw [acquire_eq]
  split
  · split
    · split
      · rfl
      · rfl
    · rfl
  · rfl

theorem dropWhileLenLe {α : Type} (p : α → Bool) (l : List α) :
    (l.dropWhile p).length ≤ l.length := by
  have h := congrArg List.length (List.takeWhile_append_dropWhile p l)
  rw [List.length_append] at h
  omega

theorem dropWhileHeadFalse {α : Type} (p : α → Bool) (l : List α) (a : α)
    (h : (l.dropWhile p).head? = some a) : p a = false := by
  induction l with
  | nil => exact absurd h (by simp [List.dropWhile])
  | cons x t ih =>
    rw [List.dropWhile_cons] at h
    by_cases hx : p x = true
    · rw [if_pos hx] at h
      exact ih h
    · rw [if_neg hx] at h
      rw [List.head?_cons] at h
      have hax := Option.some.inj h
      rw [← hax]
      exact Bool.not_eq_true _ ▸ hx

theorem countP_window_le (W g : ℚ) (pre keep : List ℚ) (n : ℕ)
    (hpre : ∀ x ∈ pre, x < g - W)
    (hkeep : List.countP (fun x => decide (g - W < x) && decide (x ≤ g)) keep ≤ n) :
    List.countP (fun x => decide (g - W < x) && decide (x ≤ g)) (pre ++ keep) ≤ n := by
  rw [List.countP_append]
  have h0 : List.countP (fun x => decide (g - W < x) && decide (x ≤ g)) pre = 0 := by
    rw [List.countP_eq_zero]
    intro a ha hc
    rw [Bool.and_eq_true, decide_eq_true_eq, decide_eq_true_eq] at hc
    have := hpre a ha
    linarith [hc.1]
  omega

theorem count_append_new (maxR : ℕ) (W : ℚ) (gs : List ℚ) (g : ℚ) (hmax : 1 ≤ maxR)
    (hbound : ∀ t : ℚ, intervalCount W gs t ≤ maxR)
    (hnew : intervalCount W gs g ≤ maxR - 1)
    (hle : ∀ x ∈ gs, x ≤ g) :
    ∀ t : ℚ, intervalCount W (gs ++ [g]) t ≤ maxR := by
  intro t
  unfold intervalCount at *
  rw [List.countP_append]
  by_cases hin : (decide (t - W < g) && decide (g ≤ t)) = true
  · rw [Bool.and_eq_true, decide_eq_true_eq, decide_eq_true_eq] at hin
    have hmono : List.countP (fun x => decide (t - W < x) && decide (x ≤ t)) gs
        ≤ List.countP (fun x => decide (g - W < x) && decide (x ≤ g)) gs := by
      apply List.countP_mono_left
      intro x hx hpx
      rw [Bool.and_eq_true, decide_eq_true_eq, decide_eq_true_eq] at hpx
      rw [Bool.and_eq_true, decide_eq_true_eq, decide_eq_true_eq]
      exact ⟨by linarith [hin.2, hpx.1], hle x hx⟩
    have hsing : List.countP (fun x => decide (t - W < x) && decide (x ≤ t)) [g] ≤ 1 := by
      have := List.countP_le_length (fun x => decide (t - W < x) && decide (x ≤ t))
        (l := [g])
      simpa using this
    omega
  · have hsing : List.countP (fun x => decide (t - W < x) && decide (x ≤ t)) [g] = 0 := by
      rw [List.countP_eq_zero]
      intro a ha
      rw [List.mem_singleton] at ha
      rw [ha]
      exact fun hc => hin hc
    have := hbound t
    omega

/-- One `acquire()` step preserves the limiter/history invariant: the new
grant time is after the previous one and `RLInv` holds again for the
extended history. -/
theorem acquire_step (maxR : ℕ) (W T : ℚ) (gs ts : List ℚ) (e : AcquireEnv)
    (hmax : 1 ≤ maxR) (hInv : RLInv maxR W T gs ts) (hT : T < e.now)
    (hE : envOk ⟨maxR, W, ts⟩ e = true) :
    T < (acquire ⟨maxR, W, ts⟩ e).2 ∧
    RLInv maxR W (acquire ⟨maxR, W, ts⟩ e).2 (gs ++ [(acquire ⟨maxR, W, ts⟩ e).2])
      (acquire ⟨maxR, W, ts⟩ e).1.request_timestamps := by
  obtain ⟨hA, ⟨dropped, hgs, hdrop⟩, hC, hD, hE0⟩ := hInv
  simp only [envOk, Bool.and_eq_true, decide_eq_true_eq] at hE
  have hjit : (1 : ℚ)/10 ≤ e.jitter := hE.1.1
  have hsleep : e.now + sleepLowerBound ⟨maxR, W, ts⟩ e ≤ e.now2 := hE.2
  have hdec : ts.takeWhile (fun t => decide (t < e.now - W)) ++
      ts.dropWhile (fun t => decide (t < e.now - W)) = ts :=
    List.takeWhile_append_dropWhile _ _
  have htk : ∀ x ∈ ts.takeWhile (fun t => decide (t < e.now - W)), x < e.now - W := by
    intro x hx
    have hpx := List.mem_takeWhile_imp hx
    exact of_decide_eq_true hpx
  have hdrop' : ∀ x ∈ dropped, x < e.now - W := by
    intro x hx
    have := hdrop x hx
    linarith
  have hgs_dec : gs = (dropped ++ ts.takeWhile (fun t => decide (t < e.now - W)))
      ++ ts.dropWhile (fun t => decide (t < e.now - W)) := by
    rw [List.append_assoc, hdec, hgs]
  have hpre : ∀ x ∈ dropped ++ ts.takeWhile (fun t => decide (t < e.now - W)),
      x < e.now - W := by
    intro x hx
    rcases List.mem_append.mp hx with h1 | h1
    · exact hdrop' x h1
    · exact htk x h1
  have hlen1 : (ts.dropWhile (fun t => decide (t < e.now - W))).length ≤ maxR := by
    by_cases hts : ts.length ≤ maxR
    · exact le_trans (dropWhileLenLe _ _) hts
    · have hts1 : ts.length = maxR + 1 := by omega
      obtain ⟨h1, rest, hts_eq, hh1⟩ := hD hts1
      have hph1 : (fun t : ℚ => decide (t < e.now - W)) h1 = true := by
        simp only [decide_eq_true_eq]
        linarith
      have hrest : rest.length = maxR := by
        rw [hts_eq] at hts1
        simp only [List.length_cons] at hts1
        omega
      rw [hts_eq, List.dropWhile_cons, if_pos hph1]
      exact le_trans (dropWhileLenLe _ _) (le_of_eq hrest)
  by_cases hthr : maxR ≤ (ts.dropWhile (fun t => decide (t < e.now - W))).length
  · -- at capacity
    have hne : (ts.dropWhile (fun t => decide (t < e.now - W))) ≠ [] := by
      intro hnil
      rw [hnil] at hthr
      simp only [List.length_nil] at hthr
      omega
    obtain ⟨oldest, d1t, hd1c⟩ := List.exists_cons_of_ne_nil hne
    have hhead : (ts.dropWhile (fun t => decide (t < e.now - W))).head? = some oldest := by
      rw [hd1c]
      rfl
    have hold2 : e.now - W ≤ oldest := by
      have h0 := dropWhileHeadFalse _ _ _ hhead
      rw [decide_eq_false_iff_not] at h0
      exact not_lt.mp h0
    have hlend1 : (ts.dropWhile (fun t => decide (t < e.now - W))).length = maxR :=
      le_antisymm hlen1 hthr
    have hd1tlen : d1t.length = maxR - 1 := by
      rw [hd1c] at hlend1
      simp only [List.length_cons] at hlend1
      omega
    by_cases hw : 0 < oldest + W - e.now
    · -- sleeping path: the grant is recorded at e.now2 after the wait
      have hslb : sleepLowerBound ⟨maxR, W, ts⟩ e = oldest + W - e.now + e.jitter := by
        simp only [sleepLowerBound_eq, if_pos hthr, hhead, if_pos hw]
      have hnow2 : oldest + W + e.jitter ≤ e.now2 := by
        rw [hslb] at hsleep
        linarith
      have hold3 : oldest < e.now2 - W := by linarith
      have hnownow2 : e.now < e.now2 := by linarith
      have hacq : acquire ⟨maxR, W, ts⟩ e =
          (⟨maxR, W, ((ts.dropWhile (fun t => decide (t < e.now - W))).dropWhile
            (fun t => decide (t < e.now2 - W))) ++ [e.now2]⟩, e.now2) := by
        simp only [acquire_eq, if_pos hthr, hhead, if_pos hw]
      rw [hacq]
      have hd2 : (ts.dropWhile (fun t => decide (t < e.now - W))).dropWhile
          (fun t => decide (t < e.now2 - W))
          = d1t.dropWhile (fun t => decide (t < e.now2 - W)) := by
        rw [hd1c, List.dropWhile_cons, if_pos (by simp only [decide_eq_true_eq]; exact hold3)]
      have hd2len : ((ts.dropWhile (fun t => decide (t < e.now - W))).dropWhile
          (fun t => decide (t < e.now2 - W))).length ≤ maxR - 1 := by
        rw [hd2]
        exact le_trans (dropWhileLenLe _ _) (le_of_eq hd1tlen)
      have hdec2 : (ts.dropWhile (fun t => decide (t < e.now - W))).takeWhile
            (fun t => decide (t < e.now2 - W)) ++
          (ts.dropWhile (fun t => decide (t < e.now - W))).dropWhile
            (fun t => decide (t < e.now2 - W))
          = ts.dropWhile (fun t => decide (t < e.now - W)) :=
        List.takeWhile_append_dropWhile _ _
      have htk2 : ∀ x ∈ (ts.dropWhile (fun t => decide (t < e.now - W))).takeWhile
          (fun t => decide (t < e.now2 - W)), x < e.now2 - W := by
        intro x hx
        have hpx := List.mem_takeWhile_imp hx
        exact of_decide_eq_true hpx
      have hgs_dec2 : gs = ((dropped ++ ts.takeWhile (fun t => decide (t < e.now - W))) ++
          (ts.dropWhile (fun t => decide (t < e.now - W))).takeWhile
            (fun t => decide (t < e.now2 - W))) ++
          (ts.dropWhile (fun t => decide (t < e.now - W))).dropWhile
            (fun t => decide (t < e.now2 - W)) := by
        rw [List.append_assoc, hdec2]
        exact hgs_dec
      have hpre2 : ∀ x ∈ (dropped ++ ts.takeWhile (fun t => decide (t < e.now - W))) ++
          (ts.dropWhile (fun t => decide (t < e.now - W))).takeWhile
            (fun t => decide (t < e.now2 - W)), x < e.now2 - W := by
        intro x hx
        rcases List.mem_append.mp hx with h1 | h1
        · have := hpre x h1
          linarith
        · exact htk2 x h1
      refine ⟨lt_trans hT hnownow2, ?_, ?_, ?_, ?_, ?_⟩
      · -- le_T
        intro g hg
        rcases List.mem_append.mp hg with h1 | h1
        · have := hA g h1
          linarith
        · rw [List.mem_singleton] at h1
          rw [h1]
      · -- decomp
        refine ⟨(dropped ++ ts.takeWhile (fun t => decide (t < e.now - W))) ++
          (ts.dropWhile (fun t => decide (t < e.now - W))).takeWhile
            (fun t => decide (t < e.now2 - W)), ?_, ?_⟩
        · rw [← List.append_assoc, ← hgs_dec2]
        · intro x hx
          exact hpre2 x hx
      · -- len_le
        rw [List.length_append, List.length_cons, List.length_nil]
        omega
      · -- overflow
        intro hlen
        rw [List.length_append, List.length_cons, List.length_nil] at hlen
        omega
      · -- count_le
        apply count_append_new maxR W gs e.now2 hmax hE0
        · unfold intervalCount
          rw [hgs_dec2]
          apply countP_window_le
          · intro x hx
            exact hpre2 x hx
          · exact le_trans (List.countP_le_length _) hd2len
        · intro x hx
          have := hA x hx
          linarith
    · -- boundary path: zero computed wait, the grant is recorded at e.now
      have hwz : oldest = e.now - W := by
        have h1 : oldest + W - e.now ≤ 0 := not_lt.mp hw
        linarith
      have hacq : acquire ⟨maxR, W, ts⟩ e =
          (⟨maxR, W, (ts.dropWhile (fun t => decide (t < e.now - W))) ++ [e.now]⟩, e.now) := by
        simp only [acquire_eq, if_pos hthr, hhead, if_neg hw]
      rw [hacq]
      refine ⟨hT, ?_, ?_, ?_, ?_, ?_⟩
      · intro g hg
        rcases List.mem_append.mp hg with h1 | h1
        · have := hA g h1
          linarith
        · rw [List.mem_singleton] at h1
          rw [h1]
      · refine ⟨dropped ++ ts.takeWhile (fun t => decide (t < e.now - W)), ?_, ?_⟩
        · rw [← List.append_assoc, ← hgs_dec]
        · intro x hx
          exact hpre x hx
      · rw [List.length_append, List.length_cons, List.length_nil]
        omega
      · intro _
        refine ⟨oldest, d1t ++ [e.now], ?_, ?_⟩
        · rw [hd1c]
          rfl
        · linarith
      · apply count_append_new maxR W gs e.now hmax hE0
        · unfold intervalCount
          rw [hgs_dec]
          apply countP_window_le
          · intro x hx
            exact hpre x hx
          · rw [hd1c, List.countP_cons]
            have hpo : (decide (e.now - W < oldest) && decide (oldest ≤ e.now)) = false := by
              rw [Bool.and_eq_false_iff]
              left
              rw [decide_eq_false_iff_not]
              rw [hwz]
              exact lt_irrefl _
            rw [hpo]
            have hcount := List.countP_le_length
              (fun x => decide (e.now - W < x) && decide (x ≤ e.now)) (l := d1t)
            simp only [Bool.false_eq_true, if_false]
            omega
        · intro x hx
          have := hA x hx
          linarith
  · -- below capacity: the grant is recorded at e.now at once
    have hacq : acquire ⟨maxR, W, ts⟩ e =
        (⟨maxR, W, (ts.dropWhile (fun t => decide (t < e.now - W))) ++ [e.now]⟩, e.now) := by
      simp only [acquire_eq, if_neg hthr]
    rw [hacq]
    refine ⟨hT, ?_, ?_, ?_, ?_, ?_⟩
    · intro g hg
      rcases List.mem_append.mp hg with h1 | h1
      · have := hA g h1
        linarith
      · rw [List.mem_singleton] at h1
        rw [h1]
    · refine ⟨dropped ++ ts.takeWhile (fun t => decide (t < e.now - W)), ?_, ?_⟩
      · rw [← List.append_assoc, ← hgs_dec]
      · intro x hx
        exact hpre x hx
    · rw [List.length_append, List.length_cons, List.length_nil]
      omega
    · intro hlen
      rw [List.length_append, List.length_cons, List.length_nil] at hlen
      omega
    · apply count_append_new maxR W gs e.now hmax hE0
      · unfold intervalCount
        rw [hgs_dec]
        apply countP_window_le
        · intro x hx
          exact hpre x hx
        · have := List.countP_le_length
            (fun x => decide (e.now - W < x) && decide (x ≤ e.now))
            (l := ts.dropWhile (fun t => decide (t < e.now - W)))
          omega
      · intro x hx
        have := hA x hx
        linarith

/-- Along a strictly-clocked valid trace, the whole grant history keeps
every trailing window at or below capacity, and every call is granted. -/
theorem runAcquires_cap (maxR : ℕ) (W : ℚ) (hmax : 1 ≤ maxR) :
    ∀ (envs : List AcquireEnv) (T : ℚ) (ts gs : List ℚ),
      RLInv maxR W T gs ts →
      validFrom true T ⟨maxR, W, ts⟩ envs = true →
      (∀ t : ℚ, intervalCount W (gs ++ (runAcquires ⟨maxR, W, ts⟩ envs).2) t ≤ maxR) ∧
      (runAcquires ⟨maxR, W, ts⟩ envs).2.length = envs.length := by
  intro envs
  induction envs with
  | nil =>
    intro T ts gs hInv hv
    refine ⟨?_, rfl⟩
    intro t
    rw [runAcquires]
    simp only [List.append_nil]
    exact hInv.count_le t
  | cons e es ih =>
    intro T ts gs hInv hv
    simp only [validFrom, Bool.and_eq_true, decide_eq_true_eq, if_true] at hv
    obtain ⟨⟨hT', hE⟩, hrest⟩ := hv
    have step := acquire_step maxR W T gs ts e hmax hInv hT' hE
    have hfields := acquire_fields maxR W ts e
    have hv2 : validFrom true (acquire ⟨maxR, W, ts⟩ e).2
        ⟨maxR, W, (acquire ⟨maxR, W, ts⟩ e).1.request_timestamps⟩ es = true := by
      rw [← hfields]
      exact hrest
    have ihres := ih (acquire ⟨maxR, W, ts⟩ e).2
      ((acquire ⟨maxR, W, ts⟩ e).1.request_timestamps)
      (gs ++ [(acquire ⟨maxR, W, ts⟩ e).2]) step.2 hv2
    rw [← hfields] at ihres
    constructor
    · intro t
      have hi := ihres.1 t
      rw [runAcquires]
      simp only []
      rw [List.append_cons]
      exact hi
    · have hi := ihres.2
      rw [runAcquires]
      simp only [List.length_cons]
      omega


/-- C1 amended: for a serialized trace of `acquire()` calls on one
`RateLimiter` in which every call reads a clock strictly later than the
previous grant timestamp (and sleeps respect `wait_time + jitter` with
jitter drawn from `[0.1, 0.5]`), at most `max_requests` grant timestamps
lie in any trailing half-open `window_seconds` interval; no call is
dropped (every `acquire` appends exactly one grant); and a call that
finds the window full with a positive computed wait records its grant
timestamp only after the wait (`time.time()` re-read after the sleep).
Without the strict-clock proviso the cap can be exceeded (see the
counterexample): when a call reads a time exactly one window after the
oldest retained timestamp, `wait_time` is `0`, the `wait_time > 0` guard
skips the sleep and the call is granted immediately at capacity. -/
theorem rate_limiter_sliding_window_cap (maxR : ℕ) (W t0 : ℚ) (envs : List AcquireEnv)
    (hmax : 1 ≤ maxR) (_hW : 0 < W)
    (hv : validFrom true t0 ⟨maxR, W, []⟩ envs = true) :
    (∀ t : ℚ, intervalCount W (runAcquires ⟨maxR, W, []⟩ envs).2 t ≤ maxR) ∧
    (runAcquires ⟨maxR, W, []⟩ envs).2.length = envs.length ∧
    (∀ (mR : ℕ) (Wc : ℚ) (tsc : List ℚ) (ev : AcquireEnv) (oldest : ℚ),
      mR ≤ (tsc.dropWhile (fun t => decide (t < ev.now - Wc))).length →
      (tsc.dropWhile (fun t => decide (t < ev.now - Wc))).head? = some oldest →
      0 < oldest + Wc - ev.now →
      (acquire ⟨mR, Wc, tsc⟩ ev).2 = ev.now2) := by
  have hInv0 : RLInv maxR W t0 [] [] := by
    refine ⟨by simp, ⟨[], rfl, by simp⟩, by simp, ?_, ?_⟩
    · intro h
      simp at h
    · intro t
      simp [intervalCount]
  have hrun := runAcquires_cap maxR W hmax envs t0 [] [] hInv0 hv
  refine ⟨?_, hrun.2, ?_⟩
  · intro t
    have hi := hrun.1 t
    rwa [List.nil_append] at hi
  · intro mR Wc tsc ev oldest hthr hhead hw
    simp only [acquire_eq, if_pos hthr, hhead, if_pos hw]

/-- C1 counterexample: a physically valid serialized trace (clock
non-decreasing, as `time.time()` permits — two calls may read the same
float) on `RateLimiter(max_requests=1, window_seconds=60)` in which every
call is granted without sleeping, producing the grants `[0, 60, 60]`:
the trailing window `(0, 60]` holds 2 > 1 grants, so the claimed hard cap
is violated as stated.  The middle conjunct shows the grant timestamps. -/
theorem rate_limiter_cap_cex :
    validFrom false 0 ⟨1, 60, []⟩
      [⟨0, 1/4, 0⟩, ⟨60, 1/4, 60⟩, ⟨60, 1/4, 60⟩] = true ∧
    (runAcquires ⟨1, 60, []⟩ [⟨0, 1/4, 0⟩, ⟨60, 1/4, 60⟩, ⟨60, 1/4, 60⟩]).2 = [0, 60, 60] ∧
    ¬ intervalCount 60
      (runAcquires ⟨1, 60, []⟩ [⟨0, 1/4, 0⟩, ⟨60, 1/4, 60⟩, ⟨60, 1/4, 60⟩]).2 60 ≤ 1 := by
  refine ⟨?_, ?_, ?_⟩
  · norm_num [validFrom, envOk, sleepLowerBound, acquire, _clean_old_requests]
  · norm_num [runAcquires, acquire, _clean_old_requests]
  · norm_num [runAcquires, acquire, _clean_old_requests, intervalCount,
      List.countP_cons, List.countP_nil]

/-- C1 amended, witness at a concrete input: a strictly-clocked two-call
trace. -/
theorem rate_limiter_sliding_window_cap_witness :
    (∀ t : ℚ, intervalCount 60
      (runAcquires ⟨1, 60, []⟩ [⟨1, 1/4, 1⟩, ⟨2, 1/4, 62⟩]).2 t ≤ 1) ∧
    (runAcquires ⟨1, 60, []⟩ [⟨1, 1/4, 1⟩, ⟨2, 1/4, 62⟩]).2.length = 2 :=
  have h := rate_limiter_sliding_window_cap 1 60 0 [⟨1, 1/4, 1⟩, ⟨2, 1/4, 62⟩]
    (by norm_num) (by norm_num)
    (by norm_num [validFrom, envOk, sleepLowerBound, acquire, _clean_old_requests])
  ⟨h.1, h.2.1⟩

end AKTools
